import Mathlib

/-!
Verification of the core multiplexing engine of the spike-cli repository.

Strings of the TypeScript source are modelled as `List Char` (`Str`), so that
prefix/suffix reasoning can use the list lemmas of the library.  JavaScript
`Map`/object values are modelled as association lists in insertion order,
JSON values as the inductive `JsonVal`, and `JSON.parse` outcomes as
`Option JsonVal` inputs.  Each definition is a direct translation of the
named source function.
-/

namespace SpikeCLI

/-- Strings are lists of characters. -/
abbrev Str := List Char

/-- Turn a Lean string literal into the `Str` representation. -/
def cs (s : String) : Str := s.data

/-! ### src/multiplexer/namespace.ts -/

/-- Source: `DEFAULT_SEPARATOR = "__"`. -/
def DEFAULT_SEPARATOR : Str := cs "__"

/-- Source: `namespaceTool(serverName, toolName, separator)` returns
`serverName + separator + toolName`. -/
def namespaceTool (serverName toolName separator : Str) : Str :=
  serverName ++ separator ++ toolName

/-- Result of `parseNamespacedTool`. -/
structure ParsedTool where
  serverName : Str
  toolName : Str
deriving Repr, DecidableEq

/-- Stable insertion into a list sorted by length descending: the new
element is placed before the first element that is not strictly longer, so
elements of equal length keep their relative order, as JavaScript's stable
`sort` does. -/
def insertByLen (x : Str) : List Str → List Str
  | [] => [x]
  | y :: ys => if x.length < y.length then y :: insertByLen x ys else x :: y :: ys

/-- Source: `[...knownServers].sort((a, b) => b.length - a.length)`: stable sort by
length descending. -/
def sortByLenDesc : List Str → List Str
  | [] => []
  | x :: xs => insertByLen x (sortByLenDesc xs)

/-- The scan of `parseNamespacedTool`: return the first server in the list
whose `server ++ separator` is a prefix of the wire name. -/
def parseScan (namespacedName separator : Str) : List Str → Option ParsedTool
  | [] => none
  | server :: rest =>
    let pre := server ++ separator
    if pre.isPrefixOf namespacedName then
      some ⟨server, namespacedName.drop pre.length⟩
    else
      parseScan namespacedName separator rest

/-- Source: `parseNamespacedTool(namespacedName, knownServers, separator)`:
sort the known servers by length descending, then return the first whose
prefixed form is a prefix of the wire name. -/
def parseNamespacedTool (namespacedName : Str) (knownServers : List Str)
    (separator : Str) : Option ParsedTool :=
  parseScan namespacedName separator (sortByLenDesc knownServers)

/-- Source: `stripNamespace(namespacedName, serverName, separator)`: remove the
`serverName ++ separator` prefix if present, else return the input. -/
def stripNamespace (namespacedName serverName separator : Str) : Str :=
  let pre := serverName ++ separator
  if pre.isPrefixOf namespacedName then
    namespacedName.drop pre.length
  else
    namespacedName

/-! ### JSON values and association-list maps

JavaScript objects and `Map`s are modelled as association lists in insertion
order with unique keys; `JSON.parse` outcomes are modelled as
`Option JsonVal` (`none` = the parse threw). -/

/-- A JSON value. -/
inductive JsonVal where
  | str (s : Str)
  | num (n : Int)
  | bool (b : Bool)
  | null
  | arr (xs : List JsonVal)
  | obj (kvs : List (Str × JsonVal))

/-- An argument map (`Record<string, unknown>` holding JSON data). -/
abbrev Args := List (Str × JsonVal)

/-- Lookup of a key in an association list (first occurrence). -/
def alLookup {β : Type} (k : Str) : List (Str × β) → Option β
  | [] => none
  | (k', v) :: rest => if k' = k then some v else alLookup k rest

/-- Source: `map.set(k, v)` / object assignment: replace the entry in place if the
key is present, else append. -/
def alSet {β : Type} (k : Str) (v : β) : List (Str × β) → List (Str × β)
  | [] => [(k, v)]
  | (k', v') :: rest => if k' = k then (k, v) :: rest else (k', v') :: alSet k v rest

/-- Source: `map.delete(k)`: drop the entry with the given key. -/
def alErase {β : Type} (k : Str) : List (Str × β) → List (Str × β)
  | [] => []
  | (k', v') :: rest => if k' = k then rest else (k', v') :: alErase k rest

/-- The keys of an association list, in order (`[...map.keys()]`). -/
def alKeys {β : Type} (l : List (Str × β)) : List Str := l.map Prod.fst

/-- Source: `set.add(x)`: append if absent (JavaScript `Set` keeps insertion order). -/
def setAdd (l : List Str) (x : Str) : List Str :=
  if x ∈ l then l else l ++ [x]

/-- Field access `v.k` on a JSON value: a key lookup when `v` is an object. -/
def jsonObjGet (v : JsonVal) (k : Str) : Option JsonVal :=
  match v with
  | .obj kvs => alLookup k kvs
  | _ => none

/-- JavaScript falsiness of a JSON value (`undefined` is the `none` case of
the callers' `Option`). -/
def jsFalsy : JsonVal → Bool
  | .null => true
  | .str s => s.isEmpty
  | .num n => n = 0
  | .bool b => !b
  | _ => false

/-! ### src/util/glob.ts -/

/-- Anchored glob matching: the source builds the regex
`^escaped(pattern with * ↦ .*)$` and tests the name; every character other
than `*` is matched literally. -/
def globMatch (name pattern : Str) : Bool :=
  match pattern, name with
  | [], n => n.isEmpty
  | '*' :: ps, n =>
    globMatch n ps ||
      (match n with
       | [] => false
       | _ :: ns => globMatch ns ('*' :: ps))
  | _ :: _, [] => false
  | c :: ps, d :: ds => c = d && globMatch ds ps
termination_by (pattern.length, name.length)

/-- Source: `matchesAnyGlob(name, patterns)`. -/
def matchesAnyGlob (name : Str) (patterns : List Str) : Bool :=
  patterns.any (fun pattern => globMatch name pattern)

/-- Source: `ToolFilterConfig` from src/config/types. -/
structure ToolFilterConfig where
  allowed : Option (List Str) := none
  blocked : Option (List Str) := none

/-- A tool as advertised by an upstream (`ToolInfo`). -/
structure ToolInfo where
  name : Str
  description : Option Str := none
  inputSchema : JsonVal

/-- Source: `filterTools(tools, config)`: apply `allowed` (keep matches) then
`blocked` (drop matches); a missing or empty list is skipped. -/
def filterTools (tools : List ToolInfo) (config : Option ToolFilterConfig) :
    List ToolInfo :=
  match config with
  | none => tools
  | some cfg =>
    let result :=
      match cfg.allowed with
      | some al =>
        if 0 < al.length then tools.filter (fun t => matchesAnyGlob t.name al)
        else tools
      | none => tools
    match cfg.blocked with
    | some bl =>
      if 0 < bl.length then result.filter (fun t => !matchesAnyGlob t.name bl)
      else result
    | none => result

/-! ### src/multiplexer/toolset-manager.ts -/

/-- Decimal rendering of a natural number. -/
def natToStr (n : Nat) : Str := (toString n).data

/-- JSON string escaping as performed by `JSON.stringify`. -/
def jsonEscapeChar (c : Char) : Str :=
  if c = '\\' then ['\\', '\\']
  else if c = '"' then ['\\', '"']
  else if c = '\n' then ['\\', 'n']
  else if c = '\r' then ['\\', 'r']
  else if c = '\t' then ['\\', 't']
  else [c]

/-- Escape every character of a string for JSON output. -/
def jsonEscape (s : Str) : Str := s.flatMap jsonEscapeChar

/-- Source: `n` spaces. -/
def spaces (n : Nat) : Str := List.replicate n ' '

mutual

/-- Source: `JSON.stringify(v, null, 2)` starting at the given indentation. -/
def ppJson : Nat → JsonVal → Str
  | _, .str s => '"' :: (jsonEscape s ++ ['"'])
  | _, .num n => (toString n).data
  | _, .bool b => if b then cs "true" else cs "false"
  | _, .null => cs "null"
  | ind, .arr xs =>
    match xs with
    | [] => cs "[]"
    | _ =>
      '[' :: '\n' ::
        (List.intercalate (cs ",\n")
            ((ppJsonList (ind + 2) xs).map (fun item => spaces (ind + 2) ++ item)) ++
          ('\n' :: (spaces ind ++ [']'])))
  | ind, .obj kvs =>
    match kvs with
    | [] => cs "\x7b\x7d"
    | _ =>
      '\x7b' :: '\n' ::
        (List.intercalate (cs ",\n")
            ((ppJsonObj (ind + 2) kvs).map (fun item => spaces (ind + 2) ++ item)) ++
          ('\n' :: (spaces ind ++ ['\x7d'])))

/-- Render every element of a JSON array. -/
def ppJsonList : Nat → List JsonVal → List Str
  | _, [] => []
  | ind, x :: xs => ppJson ind x :: ppJsonList ind xs

/-- Render every `"key": value` entry of a JSON object. -/
def ppJsonObj : Nat → List (Str × JsonVal) → List Str
  | _, [] => []
  | ind, (k, v) :: kvs =>
    ('"' :: (jsonEscape k ++ ['"'] ++ cs ": " ++ ppJson ind v)) :: ppJsonObj ind kvs

end

/-- A text content item of an MCP tool result (the only semantically
interpreted content type). -/
structure ContentItem where
  text : Str
deriving DecidableEq

/-- Source: `CallToolResult`: content blocks plus the optional `isError` flag. -/
structure CallToolResult where
  content : List ContentItem
  isError : Option Bool := none
deriving DecidableEq

/-- Source: `ToolsetConfig` from src/config/types. -/
structure ToolsetConfig where
  servers : List Str
  description : Option Str := none

/-- State of a `ToolsetManager`: the configured toolsets, the set of loaded
toolset names, and the per-server tool-count callback. -/
structure ToolsetMgr where
  toolsets : List (Str × ToolsetConfig)
  loadedToolsets : List Str
  serverToolCountFn : Str → Nat

/-- Source: `ToolsetManager.isServerVisible`: visible iff the server belongs to no
toolset, or some containing toolset is loaded. -/
def isServerVisible (tm : ToolsetMgr) (serverName : Str) : Bool :=
  let belongsToToolset := tm.toolsets.any (fun ts => serverName ∈ ts.2.servers)
  if !belongsToToolset then
    true
  else
    tm.toolsets.any (fun ts => serverName ∈ ts.2.servers ∧ ts.1 ∈ tm.loadedToolsets)

/-- Sum of `serverToolCountFn` over a server list (`reduce` in the source). -/
def sumToolCount (tm : ToolsetMgr) (servers : List Str) : Nat :=
  servers.foldl (fun sum server => sum + tm.serverToolCountFn server) 0

/-- Source: `ToolsetManager.loadToolset`: fail on an unknown name, otherwise add to
the loaded set and report the member servers and their total tool count. -/
def loadToolset (tm : ToolsetMgr) (name : Str) :
    Except Unit (ToolsetMgr × List Str × Nat) :=
  match alLookup name tm.toolsets with
  | none => .error ()
  | some toolset =>
    .ok ({ tm with loadedToolsets := setAdd tm.loadedToolsets name },
      toolset.servers, sumToolCount tm toolset.servers)

/-- Source: `ToolsetManager.unloadToolset`: fail on an unknown name, otherwise
remove from the loaded set. -/
def unloadToolset (tm : ToolsetMgr) (name : Str) : Except Unit ToolsetMgr :=
  match alLookup name tm.toolsets with
  | none => .error ()
  | some _ =>
    .ok { tm with loadedToolsets := tm.loadedToolsets.filter (fun y => y ≠ name) }

/-- Source: `ToolsetInfo` rows reported by `listToolsets`. -/
structure ToolsetInfo where
  name : Str
  description : Option Str
  loaded : Bool
  servers : List Str
  toolCount : Nat

/-- Source: `ToolsetManager.listToolsets`. -/
def listToolsets (tm : ToolsetMgr) : List ToolsetInfo :=
  tm.toolsets.map (fun ts =>
    { name := ts.1
      description := ts.2.description
      loaded := ts.1 ∈ tm.loadedToolsets
      servers := ts.2.servers
      toolCount := sumToolCount tm ts.2.servers })

/-- JSON form of a `ToolsetInfo` (`JSON.stringify` omits an absent
`description`). -/
def toolsetInfoToJson (i : ToolsetInfo) : JsonVal :=
  .obj ([(cs "name", .str i.name)] ++
    (match i.description with
     | some d => [(cs "description", JsonVal.str d)]
     | none => []) ++
    [(cs "loaded", .bool i.loaded),
     (cs "servers", .arr (i.servers.map .str)),
     (cs "toolCount", .num i.toolCount)])

/-- Source: `ToolsetManager.getMetaTools`: the three synthetic meta-tools. -/
def getMetaTools : List ToolInfo :=
  [{ name := cs "spike__list_toolsets"
     description := some (cs "List available toolsets and their status")
     inputSchema := .obj [(cs "type", .str (cs "object")),
       (cs "properties", .obj [])] },
   { name := cs "spike__load_toolset"
     description := some (cs "Load a toolset to make its tools available")
     inputSchema := .obj [(cs "type", .str (cs "object")),
       (cs "properties", .obj [(cs "name", .obj [(cs "type", .str (cs "string")),
         (cs "description", .str (cs "Name of the toolset to load"))])]),
       (cs "required", .arr [.str (cs "name")])] },
   { name := cs "spike__unload_toolset"
     description := some (cs
       "Unload a previously loaded toolset, removing its tools from the active context to save context window space")
     inputSchema := .obj [(cs "type", .str (cs "object")),
       (cs "properties", .obj [(cs "name", .obj [(cs "type", .str (cs "string")),
         (cs "description", .str (cs "Name of the toolset to unload"))])]),
       (cs "required", .arr [.str (cs "name")])] }]

/-- Source: `ToolsetManager.isMetaTool`. -/
def isMetaTool (toolName : Str) : Bool :=
  toolName = cs "spike__list_toolsets" ∨ toolName = cs "spike__load_toolset" ∨
    toolName = cs "spike__unload_toolset"

/-- The `name` argument extraction of `handleMetaTool`:
`typeof args.name === "string" ? args.name : ""`. -/
def metaArgName (args : Args) : Str :=
  match alLookup (cs "name") args with
  | some (.str s) => s
  | _ => []

/-- Source: `ToolsetManager.handleMetaTool`: execute a meta-tool, returning its
result and the updated manager state. -/
def handleMetaTool (tm : ToolsetMgr) (toolName : Str) (args : Args) :
    CallToolResult × ToolsetMgr :=
  if toolName = cs "spike__list_toolsets" then
    ({ content := [⟨ppJson 0 (.arr ((listToolsets tm).map toolsetInfoToJson))⟩] }, tm)
  else if toolName = cs "spike__load_toolset" then
    let name := metaArgName args
    if name.isEmpty then
      ({ content := [⟨cs "Error: name is required"⟩], isError := some true }, tm)
    else
      match loadToolset tm name with
      | .error _ =>
        ({ content := [⟨cs "Error: Unknown toolset: " ++ name⟩],
           isError := some true }, tm)
      | .ok (tm', loaded, toolCount) =>
        ({ content := [⟨cs "Loaded toolset \"" ++ name ++ cs "\": " ++
            List.intercalate (cs ", ") loaded ++ cs " (" ++ natToStr toolCount ++
            cs " tools now available)"⟩] }, tm')
  else if toolName = cs "spike__unload_toolset" then
    let name := metaArgName args
    if name.isEmpty then
      ({ content := [⟨cs "Error: name is required"⟩], isError := some true }, tm)
    else
      match alLookup name tm.toolsets with
      | none =>
        ({ content := [⟨cs "Error: Unknown toolset: " ++ name⟩],
           isError := some true }, tm)
      | some toolset =>
        if name ∉ tm.loadedToolsets then
          ({ content := [⟨cs "Toolset \"" ++ name ++
              cs "\" is not currently loaded"⟩], isError := some true }, tm)
        else
          let tm' := match unloadToolset tm name with
            | .ok tm' => tm'
            | .error _ => tm
          ({ content := [⟨cs "Unloaded toolset \"" ++ name ++ cs "\": servers " ++
              List.intercalate (cs ", ") toolset.servers ++
              cs " are now hidden"⟩] }, tm')
  else
    ({ content := [⟨cs "Unknown meta-tool: " ++ toolName⟩],
       isError := some true }, tm)

/-- A load or unload call against the toolset manager. -/
inductive ToolsetOp where
  | load (name : Str)
  | unload (name : Str)

/-- Apply one toolset operation; a thrown `Unknown toolset` leaves the
state unchanged. -/
def applyToolsetOp (tm : ToolsetMgr) : ToolsetOp → ToolsetMgr
  | .load name =>
    match loadToolset tm name with
    | .ok (tm', _, _) => tm'
    | .error _ => tm
  | .unload name =>
    match unloadToolset tm name with
    | .ok tm' => tm'
    | .error _ => tm

/-- Apply a sequence of toolset operations in order. -/
def applyToolsetOps (tm : ToolsetMgr) (ops : List ToolsetOp) : ToolsetMgr :=
  ops.foldl applyToolsetOp tm

/-- A fresh toolset manager: nothing is loaded. -/
def initToolsetMgr (toolsets : List (Str × ToolsetConfig))
    (fn : Str → Nat) : ToolsetMgr :=
  { toolsets := toolsets, loadedToolsets := [], serverToolCountFn := fn }

/-! ### src/multiplexer/server-manager.ts

An `UpstreamClient` that finished `connect()` is modelled by its cached tool
list and its `callTool` behaviour. -/

/-- A connected upstream client. -/
structure UpstreamModel where
  tools : List ToolInfo
  call : Str → Args → CallToolResult

/-- The slice of `ServerConfig` the manager consults (`config?.tools`). -/
structure ServerConfig where
  tools : Option ToolFilterConfig := none

/-- State of a `ServerManager`. -/
structure ServerManagerState where
  upstreams : List (Str × UpstreamModel)
  serverConfigs : List (Str × ServerConfig)
  separator : Str := DEFAULT_SEPARATOR
  noPrefix : Bool := false
  toolsetMgr : Option ToolsetMgr := none

/-- Source: `ServerManager.getFilteredTools`: the upstream's cached tools run through
the server's configured tool filter. -/
def getFilteredTools (st : ServerManagerState) (serverName : Str)
    (client : UpstreamModel) : List ToolInfo :=
  filterTools client.tools ((alLookup serverName st.serverConfigs).bind (·.tools))

/-- Source: `NamespacedTool` as aggregated by the manager. -/
structure NamespacedTool where
  namespacedName : Str
  originalName : Str
  serverName : Str
  description : Option Str := none
  inputSchema : JsonVal

/-- The manager-level visibility test
(`!this._toolsetManager || this._toolsetManager.isServerVisible(name)`). -/
def stVisible (st : ServerManagerState) (serverName : Str) : Bool :=
  match st.toolsetMgr with
  | some tm => isServerVisible tm serverName
  | none => true

/-- The namespaced entries contributed by one upstream in `getAllTools`. -/
def upstreamEntries (st : ServerManagerState) (serverName : Str)
    (client : UpstreamModel) : List NamespacedTool :=
  (getFilteredTools st serverName client).map (fun tool =>
    { namespacedName :=
        if st.noPrefix then tool.name
        else namespaceTool serverName tool.name st.separator
      originalName := tool.name
      serverName := serverName
      description := tool.description
      inputSchema := tool.inputSchema })

/-- The loop body of `getAllTools` for one upstream: skip it when hidden
by the toolset manager, else contribute its namespaced entries. -/
def upstreamBlock (st : ServerManagerState) (u : Str × UpstreamModel) :
    List NamespacedTool :=
  if !stVisible st u.1 then [] else upstreamEntries st u.1 u.2

/-- The catalog row of one toolset meta-tool (owned by server `spike`). -/
def metaToolEntry (metaTool : ToolInfo) : NamespacedTool :=
  { namespacedName := metaTool.name
    originalName := metaTool.name
    serverName := cs "spike"
    description := metaTool.description
    inputSchema := metaTool.inputSchema }

/-- Source: `ServerManager.getAllTools`: visible upstreams' filtered namespaced
tools in fleet order, then the toolset meta-tools under server `spike`. -/
def getAllTools (st : ServerManagerState) : List NamespacedTool :=
  (st.upstreams.flatMap (upstreamBlock st)) ++
  (match st.toolsetMgr with
   | some _ => getMetaTools.map metaToolEntry
   | none => [])

/-- The typed failures `ServerManager.callTool` can throw. -/
inductive CallErr where
  | cannotResolve (name : Str)
  | serverNotConnected (server : Str)
  | toolsetNotLoaded (name : Str)
  | toolNotFound (name : Str)
deriving DecidableEq

/-- The message of each thrown `Error`. -/
def errMessage : CallErr → Str
  | .cannotResolve name => cs "Cannot resolve tool: " ++ name
  | .serverNotConnected server => cs "Server not connected: " ++ server
  | .toolsetNotLoaded name => cs "Tool not found: " ++ name ++ cs " (toolset not loaded)"
  | .toolNotFound name => cs "Tool not found: " ++ name

/-- Outcome of `ServerManager.callTool`: a returned result or a thrown
typed failure. -/
inductive CallOutcome where
  | ok (r : CallToolResult)
  | err (e : CallErr)

/-- The `noPrefix` scan of `callTool`: first visible upstream advertising
the tool wins; otherwise the call fails `Tool not found`. -/
def noPrefixFind (st : ServerManagerState) (name : Str) (args : Args) :
    List (Str × UpstreamModel) → CallOutcome
  | [] => .err (.toolNotFound name)
  | (serverName, client) :: rest =>
    if !stVisible st serverName then noPrefixFind st name args rest
    else if (getFilteredTools st serverName client).any (fun t => t.name = name) then
      .ok (client.call name args)
    else noPrefixFind st name args rest

/-- The non-meta dispatch of `callTool` (steps 2-7 of the spec). -/
def callToolDispatch (st : ServerManagerState) (name : Str) (args : Args) :
    CallOutcome :=
  if st.noPrefix then
    noPrefixFind st name args st.upstreams
  else
    match parseNamespacedTool name (alKeys st.upstreams) st.separator with
    | none => .err (.cannotResolve name)
    | some parsed =>
      match alLookup parsed.serverName st.upstreams with
      | none => .err (.serverNotConnected parsed.serverName)
      | some client =>
        if !stVisible st parsed.serverName then
          .err (.toolsetNotLoaded name)
        else if !((getFilteredTools st parsed.serverName client).any
            (fun t => t.name = parsed.toolName)) then
          .err (.toolNotFound name)
        else
          .ok (client.call parsed.toolName args)

/-- Source: `ServerManager.callTool`: meta-tools are delegated to the toolset
manager (possibly updating it); every other call dispatches by namespace
and leaves the state unchanged. -/
def callTool (st : ServerManagerState) (name : Str) (args : Args) :
    CallOutcome × ServerManagerState :=
  match st.toolsetMgr with
  | some tm =>
    if isMetaTool name then
      let r := handleMetaTool tm name args
      (.ok r.1, { st with toolsetMgr := some r.2 })
    else
      (callToolDispatch st name args, st)
  | none => (callToolDispatch st name args, st)

/-- Outcome of `ServerManager.reconnect`: either the new state, or the
state left behind when the fresh client's `connect()` threw. -/
inductive ReconnectOutcome where
  | ok (st : ServerManagerState)
  | connectFailed (st : ServerManagerState)

/-- Source: `ServerManager.reconnect(serverName, config)`: close and remove any
existing upstream, then create and connect a fresh client
(`freshClient = none` models `connect()` throwing). -/
def reconnect (st : ServerManagerState) (serverName : Str)
    (config : ServerConfig) (freshClient : Option UpstreamModel) :
    ReconnectOutcome :=
  let st1 :=
    match alLookup serverName st.upstreams with
    | some _ => { st with upstreams := alErase serverName st.upstreams }
    | none => st
  match freshClient with
  | none => .connectFailed st1
  | some client =>
    .ok { st1 with
      upstreams := alSet serverName client st1.upstreams
      serverConfigs := alSet serverName config st1.serverConfigs }

/-! ### Claim C1 -/

/-- The routing behaviour asserted by claim C1 for a wire name and argument
map against a manager state: the state is untouched, an unmatched wire name
fails `CannotResolve`, and a matched one resolves greedily to the unique
longest-prefix upstream whose visibility, filter, and forwarded result
determine the outcome. -/
def callToolRoutingSpec (st : ServerManagerState) (name : Str) (args : Args) :
    Prop :=
  (callTool st name args).2 = st ∧
  ((∀ s ∈ alKeys st.upstreams, ¬ (s ++ st.separator) <+: name) →
    (callTool st name args).1 = .err (.cannotResolve name)) ∧
  (∀ s₀ ∈ alKeys st.upstreams, (s₀ ++ st.separator) <+: name →
    ∃ p client,
      parseNamespacedTool name (alKeys st.upstreams) st.separator = some p ∧
      p.serverName ∈ alKeys st.upstreams ∧
      (p.serverName ++ st.separator) <+: name ∧
      p.toolName = name.drop (p.serverName ++ st.separator).length ∧
      (∀ s ∈ alKeys st.upstreams, (s ++ st.separator) <+: name →
        s.length ≤ p.serverName.length ∧
          (s.length = p.serverName.length → s = p.serverName)) ∧
      alLookup p.serverName st.upstreams = some client ∧
      (callTool st name args).1 =
        (if !stVisible st p.serverName then CallOutcome.err (.toolsetNotLoaded name)
         else if !((getFilteredTools st p.serverName client).any
             (fun t => t.name = p.toolName)) then
           CallOutcome.err (.toolNotFound name)
         else CallOutcome.ok (client.call p.toolName args)))

/-- Concrete fleet used by the witnesses: one upstream `vitest` with a
single tool `run_tests`. -/
def vitestClient : UpstreamModel :=
  { tools := [{ name := cs "run_tests", inputSchema := .obj [] }]
    call := fun _ _ => { content := [⟨cs "3 tests passed"⟩], isError := some false } }

/-- A manager connected to the `vitest` upstream, prefixed mode, no
toolset manager. -/
def stVitest : ServerManagerState :=
  { upstreams := [(cs "vitest", vitestClient)]
    serverConfigs := [(cs "vitest", {})] }

/-! ### src/multiplexer/reconnect-manager.ts -/

/-- Source: `ReconnectOptions`: every field optional. -/
structure ReconnectOptions where
  maxAttempts : Option Nat := none
  initialDelayMs : Option Nat := none
  maxDelayMs : Option Nat := none

/-- Source: `calculateBackoff(attempt, options)`: exponential backoff
`initialDelay * 2^attempt` capped at `maxDelay`; the defaults are 1000 ms
and 30000 ms (the merge `{...DEFAULT_OPTIONS, ...options}`). -/
def calculateBackoff (attempt : Nat) (options : ReconnectOptions) : Nat :=
  let initialDelayMs := options.initialDelayMs.getD 1000
  let maxDelayMs := options.maxDelayMs.getD 30000
  let delay := initialDelayMs * 2 ^ attempt
  min delay maxDelayMs

/-! ### Claim C3: toolset visibility over operation sequences -/

/-- Whether, after applying the operation sequence, the toolset `n` is
loaded: the last effective (known-name) load/unload of `n` decides, and a
never-touched toolset stays unloaded. -/
def loadedAfter (toolsets : List (Str × ToolsetConfig)) (ops : List ToolsetOp)
    (n : Str) : Bool :=
  ops.foldl (fun b op =>
    match op with
    | .load m => if m = n ∧ (alLookup m toolsets).isSome then true else b
    | .unload m => if m = n ∧ (alLookup m toolsets).isSome then false else b) false

/-- The property asserted by claim C3, for a toolset configuration, an
operation sequence, and a fleet state: visibility is characterised by
membership and loadedness, loadedness is decided by the last effective
operation, and the catalog contains a connected upstream's namespaced
tools exactly when it is visible. -/
def toolsetCatalogSpec (toolsets : List (Str × ToolsetConfig)) (fn : Str → Nat)
    (ops : List ToolsetOp) (server : Str) (st : ServerManagerState)
    (client : UpstreamModel) : Prop :=
  let tm := applyToolsetOps (initToolsetMgr toolsets fn) ops
  ((isServerVisible tm server = true) ↔
    ((∀ ts ∈ toolsets, server ∉ ts.2.servers) ∨
      (∃ ts ∈ toolsets, server ∈ ts.2.servers ∧ ts.1 ∈ tm.loadedToolsets))) ∧
  (∀ n, (n ∈ tm.loadedToolsets) ↔ loadedAfter toolsets ops n = true) ∧
  ((getAllTools st).filter (fun t => t.serverName = server) =
    if isServerVisible tm server then upstreamEntries st server client else [])

/-- The toolsets of the spec's scenario 4. -/
def toolsetsW : List (Str × ToolsetConfig) :=
  [(cs "github", { servers := [cs "github-mcp"] }),
   (cs "testing", { servers := [cs "vitest", cs "playwright"] })]

/-- An upstream for scenario 4. -/
def ghClient : UpstreamModel :=
  { tools := [{ name := cs "gh_tool", inputSchema := .obj [] }]
    call := fun _ _ => { content := [] } }

/-- A fleet with the `github-mcp` upstream and the scenario's toolsets,
after `loadToolset("github")`. -/
def stGh : ServerManagerState :=
  { upstreams := [(cs "github-mcp", ghClient)]
    serverConfigs := []
    toolsetMgr := some (applyToolsetOps (initToolsetMgr toolsetsW (fun _ => 0))
      [ToolsetOp.load (cs "github")]) }

/-! ### src/chat/tool-adapter.ts and src/chat/loop.ts -/

/-- A Claude API tool definition (`Tool` in src/chat/client.ts). -/
structure Tool where
  name : Str
  description : Str
  input_schema : JsonVal

/-- Source: `normalizeInputSchema(schema)`: copy the schema and set the top-level
`type` to `"object"` when it is absent or falsy (`!normalized.type`). -/
def normalizeInputSchema (schema : JsonVal) : JsonVal :=
  match schema with
  | .obj kvs =>
    match alLookup (cs "type") kvs with
    | none => .obj (alSet (cs "type") (.str (cs "object")) kvs)
    | some v =>
      if jsFalsy v then .obj (alSet (cs "type") (.str (cs "object")) kvs)
      else .obj kvs
  | v => v

/-- Source: `mcpToolsToClaude(tools)`. -/
def mcpToolsToClaude (tools : List NamespacedTool) : List Tool :=
  tools.map (fun tool =>
    { name := tool.namespacedName
      description := tool.description.getD []
      input_schema := normalizeInputSchema tool.inputSchema })

/-- Source: `extractDefaults(inputSchema)`: the `{key: defaultValue}` mapping of
every property that declares a `default`. -/
def extractDefaults (inputSchema : JsonVal) : Args :=
  match jsonObjGet inputSchema (cs "properties") with
  | some (.obj props) =>
    props.filterMap (fun kv =>
      match kv.2 with
      | .obj fields => (alLookup (cs "default") fields).map (fun d => (kv.1, d))
      | _ => none)
  | _ => []

/-- The `required` list of a schema (`schema.required ?? []`). -/
def schemaRequired (inputSchema : JsonVal) : List Str :=
  match jsonObjGet inputSchema (cs "required") with
  | some (.arr xs) =>
    xs.filterMap (fun x =>
      match x with
      | .str s => some s
      | _ => none)
  | _ => []

/-- Metadata row returned by `getRequiredParams`. -/
structure ParamInfo where
  name : Str
  description : Str
  type : Str
deriving DecidableEq

/-- Source: `getRequiredParams(inputSchema)`: the required params that have no
default, with description and type pulled from their property nodes. -/
def getRequiredParams (inputSchema : JsonVal) : List ParamInfo :=
  match jsonObjGet inputSchema (cs "properties") with
  | some (.obj props) =>
    let defaults := extractDefaults inputSchema
    ((schemaRequired inputSchema).filter
        (fun n => (alLookup n defaults).isNone)).map (fun n =>
      let prop := (alLookup n props).getD (.obj [])
      { name := n
        description :=
          match jsonObjGet prop (cs "description") with
          | some (.str s) => s
          | _ => []
        type :=
          match jsonObjGet prop (cs "type") with
          | some (.str s) => s
          | _ => cs "string" })
  | _ => []

/-- Source: `executeToolCall(manager, name, input)`: route through `callTool`,
join the text blocks with newlines, report `isError ?? false`; a thrown
failure becomes `Tool error: <msg>` with `isError = true`. -/
def executeToolCall (st : ServerManagerState) (name : Str) (input : Args) :
    (Str × Bool) × ServerManagerState :=
  let r := callTool st name input
  match r.1 with
  | .ok result =>
    ((List.intercalate (cs "\n") (result.content.map ContentItem.text),
      result.isError.getD false), r.2)
  | .err e => ((cs "Tool error: " ++ errMessage e, true), r.2)

/-- A content block of an LLM message. -/
inductive ContentBlock where
  | text (t : Str)
  | toolUse (id : Str) (name : Str) (input : Args)
  | toolResult (toolUseId : Str) (content : Str) (isError : Bool)

/-- Source: `Message.content` is a string or a block list. -/
inductive MsgContent where
  | str (s : Str)
  | blocks (bs : List ContentBlock)

/-- An LLM turn. -/
structure Message where
  role : Str
  content : MsgContent

/-- Is a block a `tool_use` block? -/
def isToolUse : ContentBlock → Bool
  | .toolUse _ _ _ => true
  | _ => false

/-- Serial execution of the `tool_use` blocks of one assistant turn, in
order, threading the fleet state and building the `tool_result` blocks. -/
def execToolUses (st : ServerManagerState) :
    List ContentBlock → List ContentBlock × ServerManagerState
  | [] => ([], st)
  | b :: bs =>
    match b with
    | .toolUse id name input =>
      let r := executeToolCall st name input
      let rest := execToolUses r.2 bs
      (ContentBlock.toolResult id r.1.1 r.1.2 :: rest.1, rest.2)
    | _ => execToolUses st bs

/-- The drained stream of one `createStream` call: the content blocks of
the assistant response, as a deterministic function of the message history
and the supplied tool list. -/
abbrev ChatClientModel := List Message → List Tool → List ContentBlock

/-- Observable trace of a `runAgentLoop` run: the final message list, one
record per iteration holding the tool list passed to `createStream` and
the catalog `getAllTools()` would have returned at that iteration, and the
final fleet state. -/
structure AgentTrace where
  messages : List Message
  calls : List (List Tool × List NamespacedTool)
  manager : ServerManagerState

/-- The `for (let turn = 0; ...)` body of `runAgentLoop`; `tools` was
computed before entering the loop and is reused on every iteration. -/
def agentLoopGo (client : ChatClientModel) (tools : List Tool) :
    Nat → ServerManagerState → List Message →
      List (List Tool × List NamespacedTool) → AgentTrace
  | 0, st, messages, calls => ⟨messages, calls, st⟩
  | fuel + 1, st, messages, calls =>
    let catalogNow := getAllTools st
    let content := client messages tools
    let messages1 := messages ++ [⟨cs "assistant", .blocks content⟩]
    let toolUseBlocks := content.filter isToolUse
    let calls1 := calls ++ [(tools, catalogNow)]
    if toolUseBlocks.isEmpty then
      ⟨messages1, calls1, st⟩
    else
      let r := execToolUses st toolUseBlocks
      agentLoopGo client tools fuel r.2
        (messages1 ++ [⟨cs "user", .blocks r.1⟩]) calls1

/-- Source: `runAgentLoop(userMessage, ctx)`: the tool list is computed once from
the catalog, the user turn is appended, and the loop runs for at most
`maxTurns` iterations. -/
def runAgentLoop (client : ChatClientModel) (userMessage : MsgContent)
    (st : ServerManagerState) (messages : List Message) (maxTurns : Nat) :
    AgentTrace :=
  let tools := mcpToolsToClaude (getAllTools st)
  agentLoopGo client tools maxTurns st (messages ++ [⟨cs "user", userMessage⟩]) []

/-! ### Claim C4 -/

/-- A lazily-loading fleet for the counterexample: upstream `srv` is in
toolset `g`, initially unloaded. -/
def srvClient : UpstreamModel :=
  { tools := [{ name := cs "t1", inputSchema := .obj [(cs "type", .str (cs "object"))] }]
    call := fun _ _ => { content := [⟨cs "ok"⟩] } }

/-- Manager state with `srv` hidden behind the unloaded toolset `g`. -/
def stLazy : ServerManagerState :=
  { upstreams := [(cs "srv", srvClient)]
    serverConfigs := [(cs "srv", {})]
    toolsetMgr := some (initToolsetMgr [(cs "g", { servers := [cs "srv"] })]
      (fun _ => 1)) }

/-- A chat client that asks for `spike__load_toolset g` on the first turn
and answers with text afterwards. -/
def clientLoad : ChatClientModel := fun msgs _ =>
  if msgs.length ≤ 1 then
    [ContentBlock.toolUse (cs "t1") (cs "spike__load_toolset")
      [(cs "name", .str (cs "g"))]]
  else
    [ContentBlock.text (cs "done")]

/-! ### src/util/fuzzy.ts -/

/-- Source: `isWordBoundary(target, index)`: position 0, a position after `_` or
`-`, or a lower-to-upper camelCase transition in the original casing. -/
def isWordBoundary (target : Str) (index : Nat) : Bool :=
  if index = 0 then true
  else
    match target[index - 1]?, target[index]? with
    | some prev, some curr =>
      if prev = '_' ∨ prev = '-' then true
      else prev = prev.toLower ∧ curr = curr.toUpper ∧ curr ≠ curr.toLower
    | _, _ => false

/-- The scan of `fuzzyScore`: walk the lowercased target `t` with index
`ti`, holding the query index `qi`, the last match index (`-1` before any
match) and the running score; stops when `t` or the query is exhausted.
Returns the final score and query index. -/
def fuzzyGo (target q : Str) : List Char → Nat → Nat → Int → Rat → Rat × Nat
  | [], _, qi, _, score => (score, qi)
  | c :: rest, ti, qi, lastMatchIndex, score =>
    match q[qi]? with
    | none => (score, qi)
    | some qc =>
      if c = qc then
        let s1 := if qi = 0 ∧ ti = 0 then score + 5 else score
        let s2 := if 0 < ti ∧ isWordBoundary target ti then s1 + 2 else s1
        let s3 :=
          if lastMatchIndex = (ti : Int) - 1 then s2 + 3
          else if 0 ≤ lastMatchIndex then
            s2 - (((ti : Int) - lastMatchIndex - 1 : Int) : Rat) * (1 / 2)
          else s2
        fuzzyGo target q rest (ti + 1) (qi + 1) (ti : Int) (s3 + 1)
      else
        fuzzyGo target q rest (ti + 1) qi lastMatchIndex score

/-- Source: `fuzzyScore(query, target)`: 0 on empty input or when not every query
character is matched, else the accumulated score of the greedy
case-insensitive walk. -/
def fuzzyScore (query target : Str) : Rat :=
  if query.isEmpty ∨ target.isEmpty then 0
  else
    let q := query.map Char.toLower
    let t := target.map Char.toLower
    let r := fuzzyGo target q t 0 0 (-1) 0
    if r.2 < q.length then 0 else r.1

/-- The reference scan as worded by the claim: the `+2` boundary bonus
applies at every word boundary including position 0, and the `+3`
consecutive bonus only when a previous match exists. -/
def fuzzyGoSpec (target q : Str) : List Char → Nat → Nat → Int → Rat → Rat × Nat
  | [], _, qi, _, score => (score, qi)
  | c :: rest, ti, qi, lastMatchIndex, score =>
    match q[qi]? with
    | none => (score, qi)
    | some qc =>
      if c = qc then
        let s1 := if qi = 0 ∧ ti = 0 then score + 5 else score
        let s2 := if isWordBoundary target ti then s1 + 2 else s1
        let s3 :=
          if 0 ≤ lastMatchIndex ∧ lastMatchIndex = (ti : Int) - 1 then s2 + 3
          else if 0 ≤ lastMatchIndex then
            s2 - (((ti : Int) - lastMatchIndex - 1 : Int) : Rat) * (1 / 2)
          else s2
        fuzzyGoSpec target q rest (ti + 1) (qi + 1) (ti : Int) (s3 + 1)
      else
        fuzzyGoSpec target q rest (ti + 1) qi lastMatchIndex score

/-- The reference scoring function exactly as the claim words it. -/
def fuzzyScoreSpec (query target : Str) : Rat :=
  if query.isEmpty ∨ target.isEmpty then 0
  else
    let q := query.map Char.toLower
    let t := target.map Char.toLower
    let r := fuzzyGoSpec target q t 0 0 (-1) 0
    if r.2 < q.length then 0 else r.1

/-- The amended reference scan: the boundary bonus applies only at
positions after 0, and the consecutive bonus applies to a match directly
after the previous one or to a first match at position 0. -/
def fuzzyGoAmended (target q : Str) :
    List Char → Nat → Nat → Int → Rat → Rat × Nat
  | [], _, qi, _, score => (score, qi)
  | c :: rest, ti, qi, lastMatchIndex, score =>
    match q[qi]? with
    | none => (score, qi)
    | some qc =>
      if c = qc then
        let s1 := if qi = 0 ∧ ti = 0 then score + 5 else score
        let s2 := if 0 < ti ∧ isWordBoundary target ti then s1 + 2 else s1
        let s3 :=
          if (0 ≤ lastMatchIndex ∧ lastMatchIndex = (ti : Int) - 1) ∨
              (ti = 0 ∧ lastMatchIndex = -1) then s2 + 3
          else if 0 ≤ lastMatchIndex then
            s2 - (((ti : Int) - lastMatchIndex - 1 : Int) : Rat) * (1 / 2)
          else s2
        fuzzyGoAmended target q rest (ti + 1) (qi + 1) (ti : Int) (s3 + 1)
      else
        fuzzyGoAmended target q rest (ti + 1) qi lastMatchIndex score

/-- The amended reference scoring function. -/
def fuzzyScoreAmended (query target : Str) : Rat :=
  if query.isEmpty ∨ target.isEmpty then 0
  else
    let q := query.map Char.toLower
    let t := target.map Char.toLower
    let r := fuzzyGoAmended target q t 0 0 (-1) 0
    if r.2 < q.length then 0 else r.1

/-- Stable insertion by score descending (ties keep order, as JavaScript's
stable sort with comparator `(a, b) => b.score - a.score`). -/
def insertByScore {α : Type} (x : α × Rat) : List (α × Rat) → List (α × Rat)
  | [] => [x]
  | y :: ys => if x.2 < y.2 then y :: insertByScore x ys else x :: y :: ys

/-- Stable sort by score descending. -/
def sortByScoreDesc {α : Type} : List (α × Rat) → List (α × Rat)
  | [] => []
  | x :: xs => insertByScore x (sortByScoreDesc xs)

/-- Source: `fuzzyFilter(query, items, getText)`: keep items with positive score,
sorted by score descending. -/
def fuzzyFilter {α : Type} (query : Str) (items : List α) (getText : α → Str) :
    List α :=
  if query.isEmpty then []
  else
    let scored := (items.map (fun item =>
      (item, fuzzyScore query (getText item)))).filter (fun e => 0 < e.2)
    (sortByScoreDesc scored).map Prod.fst

/-! ### The session engine (slash commands) of src/auth/device-flow.ts

Tool-result strings are always consumed through `JSON.parse`; the parse
outcome is modelled as an `Option JsonVal` input (`none` = the parse threw
or the text was not JSON). -/

/-- Substring test (`String.prototype.includes`). -/
def strContainsSub : Str → Str → Bool
  | [], sub => sub.isEmpty
  | c :: rest, sub => sub.isPrefixOf (c :: rest) || strContainsSub rest sub

/-- Source: `CONFIG_PREREQUISITES`: gating tools and the tools they gate. -/
def CONFIG_PREREQUISITES : List (Str × List Str) :=
  [(cs "set_project_root",
    [cs "run_tests", cs "list_tests", cs "analyze_coverage"])]

/-- Source: `SessionState`: created ids by prefix, observed ids by parameter name,
and called configuration-prerequisite tools. -/
structure SessionState where
  created : List (Str × List Str)
  idsByKey : List (Str × List Str)
  configToolsCalled : List Str
deriving DecidableEq

/-- A fresh session. -/
def emptySession : SessionState := ⟨[], [], []⟩

/-- Source: `SessionState.recordCreate(prefix, ids)`: append to the prefix's list. -/
def recordCreate (st : SessionState) (pre : Str) (ids : List Str) :
    SessionState :=
  { st with
    created := alSet pre (((alLookup pre st.created).getD []) ++ ids) st.created }

/-- Source: `hasCreated(prefix)`. -/
def hasCreated (st : SessionState) (pre : Str) : Bool :=
  match alLookup pre st.created with
  | some ids => !ids.isEmpty
  | none => false

/-- Append one observed id value under a key of `idsByKey`. -/
def pushId (st : SessionState) (key value : Str) : SessionState :=
  { st with
    idsByKey :=
      alSet key (((alLookup key st.idsByKey).getD []) ++ [value]) st.idsByKey }

/-- One `Object.entries` step of `recordIds`: string values under keys
ending in `_id`, and under the bare key `id`, are appended. -/
def recordIdsEntry (st : SessionState) (kv : Str × JsonVal) : SessionState :=
  let st1 :=
    match kv.2 with
    | .str value => if (cs "_id").isSuffixOf kv.1 then pushId st kv.1 value else st
    | _ => st
  match kv.2 with
  | .str value => if kv.1 = cs "id" then pushId st1 kv.1 value else st1
  | _ => st1

/-- Source: `SessionState.recordIds(result)`: walk the parsed JSON object's
entries; a non-object parse (including an array, whose index keys never
match) or a parse failure records nothing. -/
def recordIds (st : SessionState) (parsed : Option JsonVal) : SessionState :=
  match parsed with
  | some (.obj kvs) => kvs.foldl recordIdsEntry st
  | _ => st

/-- Source: `SessionState.getLatestId(paramName)`: the most recent value for the
exact parameter name. -/
def getLatestId (st : SessionState) (paramName : Str) : Option Str :=
  match alLookup paramName st.idsByKey with
  | some ids => ids.getLast?
  | none => none

/-- Source: `SessionState.hasId(paramName)`. -/
def hasId (st : SessionState) (paramName : Str) : Bool :=
  match alLookup paramName st.idsByKey with
  | some ids => !ids.isEmpty
  | none => false

/-- Source: `SessionState.recordConfigCall(toolName)`. -/
def recordConfigCall (st : SessionState) (toolName : Str) : SessionState :=
  { st with configToolsCalled := setAdd st.configToolsCalled toolName }

/-- Source: `hasConfigBeenCalled(toolName)`. -/
def hasConfigBeenCalled (st : SessionState) (toolName : Str) : Bool :=
  toolName ∈ st.configToolsCalled

/-- Source: `extractPrefix(namespacedName, serverName, separator)`: strip the
server namespace, then keep everything before the first underscore. -/
def extractPrefix (namespacedName serverName separator : Str) : Str :=
  let toolName := stripNamespace namespacedName serverName separator
  match toolName.findIdx? (fun c => c = '_') with
  | none => toolName
  | some i => toolName.take i

/-- Source: `extractIdsFromResult(result)`: the string values of the keys
`id, game_id, player_id, app_id, session_id` of the parsed JSON object,
in that key order; anything else yields `[]`. -/
def extractIdsFromResult (parsed : Option JsonVal) : List Str :=
  match parsed with
  | some (.obj kvs) =>
    [cs "id", cs "game_id", cs "player_id", cs "app_id", cs "session_id"].filterMap
      (fun key =>
        match alLookup key kvs with
        | some (.str s) => some s
        | _ => none)
  | _ => []

/-- The post-call bookkeeping of `handleDirectToolCall` (lines 1111-1135):
record ids only on success, mark a configuration prerequisite, and record
create/bootstrap evidence — the latter two run regardless of `isError`. -/
def directCallBookkeeping (tool : NamespacedTool) (parsed : Option JsonVal)
    (isError : Bool) (st : SessionState) : SessionState :=
  let st1 := if !isError then recordIds st parsed else st
  let strippedName := stripNamespace tool.namespacedName tool.serverName
    DEFAULT_SEPARATOR
  let st2 :=
    if (alLookup strippedName CONFIG_PREREQUISITES).isSome then
      recordConfigCall st1 strippedName
    else st1
  let pre := extractPrefix tool.namespacedName tool.serverName DEFAULT_SEPARATOR
  if strContainsSub tool.namespacedName (cs "create") ||
      strContainsSub tool.namespacedName (cs "bootstrap") then
    let ids := extractIdsFromResult parsed
    if 0 < ids.length then recordCreate st2 pre ids
    else recordCreate st2 pre [cs "_created"]
  else st2

/-- Source: `trackToolCallForSession` (the agent-loop hook): errors record
nothing; otherwise ids, config prerequisite, and create evidence are
recorded as in the direct path. -/
def trackToolCallForSession (toolName : Str) (parsed : Option JsonVal)
    (isError : Bool) (allTools : List NamespacedTool) (st : SessionState) :
    SessionState :=
  if isError then st
  else
    match allTools.find? (fun t => t.namespacedName = toolName) with
    | none => st
    | some tool =>
      let st1 := recordIds st parsed
      let stripped := stripNamespace toolName tool.serverName DEFAULT_SEPARATOR
      let st2 :=
        if (alLookup stripped CONFIG_PREREQUISITES).isSome then
          recordConfigCall st1 stripped
        else st1
      if strContainsSub toolName (cs "create") ||
          strContainsSub toolName (cs "bootstrap") then
        let pre := extractPrefix toolName tool.serverName DEFAULT_SEPARATOR
        let ids := extractIdsFromResult parsed
        if 0 < ids.length then recordCreate st2 pre ids
        else recordCreate st2 pre [cs "_created"]
      else st2

/-- Source: `resolveToolName(command, tools)`: exact wire-name, exact original
name, exact stripped name, then fuzzy; with several fuzzy candidates the
best is returned whether or not it clears the 2x-runner-up bar. -/
def resolveToolName (command : Str) (tools : List NamespacedTool) :
    Option NamespacedTool :=
  match tools.find? (fun t => t.namespacedName = command) with
  | some t => some t
  | none =>
    match tools.find? (fun t => t.originalName = command) with
    | some t => some t
    | none =>
      match tools.find? (fun t =>
          stripNamespace t.namespacedName t.serverName DEFAULT_SEPARATOR
            = command) with
      | some t => some t
      | none =>
        let fuzzyResults := fuzzyFilter command tools (fun t =>
          stripNamespace t.namespacedName t.serverName DEFAULT_SEPARATOR)
        match fuzzyResults with
        | [] => none
        | [t] => some t
        | t0 :: t1 :: _ =>
          let bestScore := fuzzyScore command
            (stripNamespace t0.namespacedName t0.serverName DEFAULT_SEPARATOR)
          let runnerUpScore := fuzzyScore command
            (stripNamespace t1.namespacedName t1.serverName DEFAULT_SEPARATOR)
          if runnerUpScore * 2 ≤ bestScore then some t0 else some t0

/-- The user-supplied raw argument string, by its `JSON.parse` outcome:
absent, a parsed object, or malformed JSON. -/
inductive RawArgs where
  | empty
  | json (a : Args)
  | malformed

/-- The JavaScript spread `{...defaults, ...userArgs}`: defaults in order
with user overrides, then the user's new keys in order. -/
def spreadMerge (defaults userArgs : Args) : Args :=
  (defaults.map (fun kv => (kv.1, (alLookup kv.1 userArgs).getD kv.2))) ++
    userArgs.filter (fun kv => (alLookup kv.1 defaults).isNone)

/-- The auto-fill loop of `handleDirectToolCall`: each required parameter
that is still missing and is id-like (`*_id` or `id`) is filled with the
most recent observed value for that exact name, when one exists (and is
truthy). -/
def autoFillIds (required : List Str) (args : Args) (st : SessionState) :
    Args :=
  required.foldl (fun acc paramName =>
    if (alLookup paramName acc).isSome then acc
    else if (cs "_id").isSuffixOf paramName || paramName = cs "id" then
      match getLatestId st paramName with
      | some latestId =>
        if latestId.isEmpty then acc else alSet paramName (.str latestId) acc
      | none => acc
    else acc) args

/-- Outcome of the argument-assembly phase of `handleDirectToolCall`,
with no interactive readline channel: either a failure short-circuit, the
missing-required-parameter usage path, or a dispatch of the resolved wire
name with the assembled arguments. -/
inductive DirectCallOutcome where
  | noTool
  | invalidJson
  | missing (params : List Str)
  | dispatch (toolName : Str) (args : Args)

/-- The resolution and argument-assembly phase of `handleDirectToolCall`
(lines 1011-1109), up to the dispatch decision: resolve the tool, parse
the user args, merge schema defaults, auto-fill id parameters from the
session, and dispatch unless required parameters are still missing. -/
def assembleDirectCall (allTools : List NamespacedTool) (command : Str)
    (raw : RawArgs) (sessionState : SessionState) : DirectCallOutcome :=
  match resolveToolName command allTools with
  | none => .noTool
  | some tool =>
    match raw with
    | .malformed => .invalidJson
    | _ =>
      let userArgs := match raw with | .json a => a | _ => []
      let schema := tool.inputSchema
      let defaults := extractDefaults schema
      let mergedArgs := spreadMerge defaults userArgs
      let required := schemaRequired schema
      let mergedArgs2 := autoFillIds required mergedArgs sessionState
      let missingParams := (getRequiredParams schema).filter
        (fun p => (alLookup p.name mergedArgs2).isNone)
      if !missingParams.isEmpty then .missing (missingParams.map ParamInfo.name)
      else .dispatch tool.namespacedName mergedArgs2

/-! ### Claim C5 -/

/-- The chess `create` tool of the scenario. -/
def toolChessCreate : NamespacedTool :=
  { namespacedName := cs "s__chess_create_game"
    originalName := cs "chess_create_game"
    serverName := cs "s"
    inputSchema := .obj [(cs "type", .str (cs "object")),
      (cs "properties", .obj [])] }

/-- The dependent chess `make_move` tool: `game_id`, `from`, `to` required. -/
def toolChessMove : NamespacedTool :=
  { namespacedName := cs "s__chess_make_move"
    originalName := cs "chess_make_move"
    serverName := cs "s"
    inputSchema := .obj [(cs "type", .str (cs "object")),
      (cs "properties", .obj [
        (cs "game_id", .obj [(cs "type", .str (cs "string"))]),
        (cs "from", .obj [(cs "type", .str (cs "string"))]),
        (cs "to", .obj [(cs "type", .str (cs "string"))])]),
      (cs "required", .arr [.str (cs "game_id"), .str (cs "from"),
        .str (cs "to")])] }

/-! ### Claim C6 -/

/-- The session after a successful `/chess_create_game` whose result text
was `{"id":"game_abc"}`. -/
def sessionAfterCreate : SessionState :=
  directCallBookkeeping toolChessCreate
    (some (.obj [(cs "id", .str (cs "game_abc"))])) false emptySession

/-- The parsed user arguments of `/chess_make_move {"from":"e2","to":"e4"}`. -/
def moveRawArgs : RawArgs :=
  .json [(cs "from", .str (cs "e2")), (cs "to", .str (cs "e4"))]

/-! ## Theorems -/

/-! Lemmas about the sort and the scan. -/

theorem mem_insertByLen {a x : Str} {l : List Str} :
    a ∈ insertByLen x l ↔ a = x ∨ a ∈ l := by
  induction l with
  | nil => simp [insertByLen]
  | cons y ys ih =>
    by_cases h : x.length < y.length
    · simp only [insertByLen, if_pos h, List.mem_cons, ih]
      tauto
    · simp only [insertByLen, if_neg h, List.mem_cons]

theorem mem_sortByLenDesc {a : Str} {l : List Str} :
    a ∈ sortByLenDesc l ↔ a ∈ l := by
  induction l with
  | nil => simp [sortByLenDesc]
  | cons x xs ih =>
    simp only [sortByLenDesc, mem_insertByLen, List.mem_cons, ih]

theorem pairwise_insertByLen {x : Str} {l : List Str}
    (h : l.Pairwise (fun a b => b.length ≤ a.length)) :
    (insertByLen x l).Pairwise (fun a b => b.length ≤ a.length) := by
  induction l with
  | nil => simp [insertByLen]
  | cons y ys ih =>
    rcases List.pairwise_cons.1 h with ⟨hy, hys⟩
    by_cases hl : x.length < y.length
    · simp only [insertByLen, if_pos hl]
      refine List.pairwise_cons.2 ⟨?_, ih hys⟩
      intro b hb
      rcases mem_insertByLen.1 hb with rfl | hb
      · exact Nat.le_of_lt hl
      · exact hy b hb
    · simp only [insertByLen, if_neg hl]
      refine List.pairwise_cons.2 ⟨?_, h⟩
      intro b hb
      rcases List.mem_cons.1 hb with rfl | hb
      · exact Nat.le_of_not_lt hl
      · exact Nat.le_trans (hy b hb) (Nat.le_of_not_lt hl)

theorem pairwise_sortByLenDesc (l : List Str) :
    (sortByLenDesc l).Pairwise (fun a b => b.length ≤ a.length) := by
  induction l with
  | nil => simp [sortByLenDesc]
  | cons x xs ih => exact pairwise_insertByLen ih

/-- If the scan succeeds, the returned server is in the list, its prefixed
form is a prefix of the wire name, and the tool name is the rest. -/
theorem parseScan_some {w sep : Str} {l : List Str} {p : ParsedTool}
    (h : parseScan w sep l = some p) :
    p.serverName ∈ l ∧ (p.serverName ++ sep) <+: w ∧
      p.toolName = w.drop (p.serverName ++ sep).length := by
  induction l with
  | nil => simp [parseScan] at h
  | cons server rest ih =>
    by_cases hpre : (server ++ sep).isPrefixOf w
    · simp only [parseScan, if_pos hpre] at h
      cases h
      exact ⟨List.mem_cons_self _ _, List.isPrefixOf_iff_prefix.1 hpre, rfl⟩
    · simp only [parseScan, if_neg hpre] at h
      rcases ih h with ⟨h1, h2, h3⟩
      exact ⟨List.mem_cons_of_mem _ h1, h2, h3⟩

/-- If the scan fails, no server in the list matches. -/
theorem parseScan_none {w sep : Str} {l : List Str}
    (h : parseScan w sep l = none) :
    ∀ s ∈ l, ¬ (s ++ sep) <+: w := by
  induction l with
  | nil => simp
  | cons server rest ih =>
    by_cases hpre : (server ++ sep).isPrefixOf w
    · simp [parseScan, hpre] at h
    · simp only [parseScan, if_neg hpre] at h
      intro s hs
      rcases List.mem_cons.1 hs with rfl | hs
      · exact fun hc => hpre (List.isPrefixOf_iff_prefix.2 hc)
      · exact ih h s hs

/-- On a list sorted by length descending, the first match has the greatest
length among all matches. -/
theorem parseScan_maximal {w sep : Str} {l : List Str} {p : ParsedTool}
    (hsort : l.Pairwise (fun a b => b.length ≤ a.length))
    (h : parseScan w sep l = some p) :
    ∀ s ∈ l, (s ++ sep) <+: w → s.length ≤ p.serverName.length := by
  induction l with
  | nil => simp
  | cons server rest ih =>
    rcases List.pairwise_cons.1 hsort with ⟨hhead, htail⟩
    by_cases hpre : (server ++ sep).isPrefixOf w
    · simp only [parseScan, if_pos hpre] at h
      cases h
      intro s hs _
      rcases List.mem_cons.1 hs with rfl | hs
      · exact Nat.le_refl _
      · exact hhead s hs
    · simp only [parseScan, if_neg hpre] at h
      intro s hs hmatch
      rcases List.mem_cons.1 hs with rfl | hs
      · exact absurd (List.isPrefixOf_iff_prefix.2 hmatch) hpre
      · exact ih htail h s hs hmatch

/-- Two prefixes of the same list that have the same length are equal. -/
theorem prefix_eq_of_length {p q w : Str} (hp : p <+: w) (hq : q <+: w)
    (hlen : p.length = q.length) : p = q := by
  have hp' := List.prefix_iff_eq_take.1 hp
  have hq' := List.prefix_iff_eq_take.1 hq
  rw [hp', hq', hlen]

/-- Any two matching servers of equal length are equal: their prefixed forms
are equal-length prefixes of the wire name. -/
theorem match_unique_of_length {s₁ s₂ sep w : Str}
    (h₁ : (s₁ ++ sep) <+: w) (h₂ : (s₂ ++ sep) <+: w)
    (hlen : s₁.length = s₂.length) : s₁ = s₂ := by
  have : s₁ ++ sep = s₂ ++ sep := by
    apply prefix_eq_of_length h₁ h₂
    simp [hlen]
  exact List.append_cancel_right this

/-- If some server in the list matches, the scan succeeds. -/
theorem parseScan_isSome {w sep : Str} {l : List Str} {s : Str}
    (hs : s ∈ l) (hmatch : (s ++ sep) <+: w) :
    ∃ p, parseScan w sep l = some p := by
  induction l with
  | nil => simp at hs
  | cons server rest ih =>
    by_cases hpre : (server ++ sep).isPrefixOf w
    · refine ⟨⟨server, w.drop (server ++ sep).length⟩, ?_⟩
      simp [parseScan, hpre]
    · rcases List.mem_cons.1 hs with rfl | hs'
      · exact absurd (List.isPrefixOf_iff_prefix.2 hmatch) hpre
      · rcases ih hs' with ⟨p, hp⟩
        exact ⟨p, by simp [parseScan, hpre, hp]⟩

/-- Full characterisation used by the round-trip claim: if `u` is in the
list, `u`'s prefixed form is a prefix of the wire name, and no strictly
longer server matches, then the parse resolves to `u`. -/
theorem parseScan_resolves {w sep u : Str} {l : List Str}
    (hsort : l.Pairwise (fun a b => b.length ≤ a.length))
    (hu : u ∈ l) (humatch : (u ++ sep) <+: w)
    (hmax : ∀ v ∈ l, (v ++ sep) <+: w → v.length ≤ u.length) :
    parseScan w sep l = some ⟨u, w.drop (u ++ sep).length⟩ := by
  rcases parseScan_isSome hu humatch with ⟨p, hp⟩
  rcases parseScan_some hp with ⟨hmem, hmatch, htool⟩
  have hle : p.serverName.length ≤ u.length := hmax _ hmem hmatch
  have hge : u.length ≤ p.serverName.length :=
    parseScan_maximal hsort hp u hu humatch
  have : p.serverName = u :=
    match_unique_of_length hmatch humatch (Nat.le_antisymm hle hge)
  rw [hp]
  cases p
  simp_all

theorem alLookup_isSome_of_mem_keys {β : Type} {l : List (Str × β)} {k : Str}
    (h : k ∈ alKeys l) : (alLookup k l).isSome := by
  induction l with
  | nil => cases h
  | cons kv rest ih =>
    rcases kv with ⟨k₀, v₀⟩
    by_cases hk : k₀ = k
    · simp [alLookup, hk]
    · have h' : k ∈ alKeys rest := by
        rcases List.mem_cons.1 h with rfl | hm
        · exact absurd rfl hk
        · exact hm
      rw [alLookup, if_neg hk]
      exact ih h'

theorem mem_alKeys_of_alLookup {β : Type} {l : List (Str × β)} {k : Str} {v : β}
    (h : alLookup k l = some v) : k ∈ alKeys l := by
  induction l with
  | nil => cases h
  | cons kv rest ih =>
    rcases kv with ⟨k₀, v₀⟩
    by_cases hk : k₀ = k
    · exact hk ▸ List.mem_cons_self _ _
    · rw [alLookup, if_neg hk] at h
      exact List.mem_cons_of_mem _ (ih h)

theorem alLookup_alErase_self {β : Type} {l : List (Str × β)} {k : Str}
    (h : (alKeys l).Nodup) : alLookup k (alErase k l) = none := by
  induction l with
  | nil => rfl
  | cons kv rest ih =>
    rcases kv with ⟨k', v'⟩
    have hnd := List.nodup_cons.1 h
    by_cases hk : k' = k
    · subst hk
      rw [alErase, if_pos rfl]
      cases hl : alLookup k' rest with
      | none => rfl
      | some v => exact absurd (mem_alKeys_of_alLookup hl) hnd.1
    · rw [alErase, if_neg hk, alLookup, if_neg hk]
      exact ih hnd.2

theorem alLookup_alErase_other {β : Type} {l : List (Str × β)} {k k' : Str}
    (h : k' ≠ k) : alLookup k' (alErase k l) = alLookup k' l := by
  induction l with
  | nil => rfl
  | cons kv rest ih =>
    rcases kv with ⟨k₀, v₀⟩
    by_cases h0 : k₀ = k
    · subst h0
      rw [alErase, if_pos rfl, alLookup, if_neg (fun hc => h hc.symm)]
    · by_cases h1 : k₀ = k'
      · subst h1
        rw [alErase, if_neg h0, alLookup, if_pos rfl, alLookup, if_pos rfl]
      · rw [alErase, if_neg h0, alLookup, if_neg h1, alLookup, if_neg h1]
        exact ih

theorem alLookup_alSet_self {β : Type} {l : List (Str × β)} {k : Str} {v : β} :
    alLookup k (alSet k v l) = some v := by
  induction l with
  | nil => simp [alSet, alLookup]
  | cons kv rest ih =>
    rcases kv with ⟨k₀, v₀⟩
    by_cases h0 : k₀ = k
    · subst h0
      simp [alSet, alLookup]
    · simp [alSet, h0, alLookup, ih]

/-! ### Characterisation of `parseNamespacedTool` -/

/-- A successful parse returns a known server whose prefixed form is a
maximal-length matching prefix, and the tool name is the rest of the wire
name. -/
theorem parseNamespacedTool_some {w sep : Str} {servers : List Str}
    {p : ParsedTool} (h : parseNamespacedTool w servers sep = some p) :
    p.serverName ∈ servers ∧ (p.serverName ++ sep) <+: w ∧
      p.toolName = w.drop (p.serverName ++ sep).length ∧
      ∀ s ∈ servers, (s ++ sep) <+: w → s.length ≤ p.serverName.length := by
  rcases parseScan_some h with ⟨hmem, hmatch, htool⟩
  refine ⟨mem_sortByLenDesc.1 hmem, hmatch, htool, ?_⟩
  intro s hs hsm
  exact parseScan_maximal (pairwise_sortByLenDesc servers) h s
    (mem_sortByLenDesc.2 hs) hsm

/-- A failed parse means no known server's prefixed form is a prefix of the
wire name. -/
theorem parseNamespacedTool_none {w sep : Str} {servers : List Str}
    (h : parseNamespacedTool w servers sep = none) :
    ∀ s ∈ servers, ¬ (s ++ sep) <+: w :=
  fun s hs => parseScan_none h s (mem_sortByLenDesc.2 hs)

/-- If some known server matches, the parse succeeds. -/
theorem parseNamespacedTool_isSome {w sep : Str} {servers : List Str} {s : Str}
    (hs : s ∈ servers) (hmatch : (s ++ sep) <+: w) :
    ∃ p, parseNamespacedTool w servers sep = some p :=
  parseScan_isSome (mem_sortByLenDesc.2 hs) hmatch

/-- If `u` is known, matches, and no known server of greater length
matches, the parse resolves to `u`. -/
theorem parseNamespacedTool_resolves {w sep u : Str} {servers : List Str}
    (hu : u ∈ servers) (humatch : (u ++ sep) <+: w)
    (hmax : ∀ v ∈ servers, (v ++ sep) <+: w → v.length ≤ u.length) :
    parseNamespacedTool w servers sep = some ⟨u, w.drop (u ++ sep).length⟩ :=
  parseScan_resolves (pairwise_sortByLenDesc servers)
    (mem_sortByLenDesc.2 hu) humatch
    (fun v hv => hmax v (mem_sortByLenDesc.1 hv))

theorem callTool_eq_dispatch {st : ServerManagerState} {name : Str}
    {args : Args} (hmeta : isMetaTool name = false) :
    callTool st name args = (callToolDispatch st name args, st) := by
  cases h : st.toolsetMgr with
  | none => simp [callTool, h]
  | some tm => simp [callTool, h, hmeta]

/-- Claim C1: in prefixed mode, a non-meta tool call fails `CannotResolve`
when no registered upstream prefixes the wire name; otherwise it resolves
by greedy longest-prefix parse to exactly one registered upstream, fails
`ToolsetNotLoaded` when that upstream is hidden, fails `ToolNotFound` when
the parsed tool is filtered out, and otherwise returns the owning
upstream's call result unchanged. -/
theorem C1_callTool_routing (st : ServerManagerState) (name : Str)
    (args : Args) (hpfx : st.noPrefix = false)
    (hmeta : isMetaTool name = false) :
    callToolRoutingSpec st name args := by
  have hct := @callTool_eq_dispatch st name args hmeta
  refine ⟨by rw [hct], ?_, ?_⟩
  · intro hnone
    rw [hct]
    cases hp : parseNamespacedTool name (alKeys st.upstreams) st.separator with
    | none => simp [callToolDispatch, hpfx, hp]
    | some p =>
      rcases parseNamespacedTool_some hp with ⟨hmem, hmatch, -⟩
      exact absurd hmatch (hnone _ hmem)
  · intro s₀ hs₀ hs₀m
    rcases parseNamespacedTool_isSome hs₀ hs₀m with ⟨p, hp⟩
    rcases parseNamespacedTool_some hp with ⟨hmem, hmatch, htool, hmax⟩
    cases hcl : alLookup p.serverName st.upstreams with
    | none =>
      have := alLookup_isSome_of_mem_keys hmem
      rw [hcl] at this
      cases this
    | some client =>
      refine ⟨p, client, hp, hmem, hmatch, htool, ?_, hcl, ?_⟩
      · intro s hs hsm
        refine ⟨hmax s hs hsm, fun hlen => ?_⟩
        exact match_unique_of_length hsm hmatch hlen
      · rw [hct]
        simp [callToolDispatch, hpfx, hp, hcl]

theorem C1_callTool_routing_witness :
    callToolRoutingSpec stVitest (cs "vitest__run_tests") [] :=
  C1_callTool_routing stVitest (cs "vitest__run_tests") [] rfl (by decide)

/-! ### Claim C2 -/

/-- Counterexample to claim C2 as stated: with known servers
`["test", "test__x"]`, separator `"__"`, the round-trip of
`("test", "x__y")` resolves to the longer server `"test__x"`, not back to
`("test", "x__y")`. -/
theorem C2_roundtrip_cex :
    parseNamespacedTool (namespaceTool (cs "test") (cs "x__y") (cs "__"))
        [cs "test", cs "test__x"] (cs "__") =
      some ⟨cs "test__x", cs "y"⟩ ∧
    (⟨cs "test__x", cs "y"⟩ : ParsedTool) ≠ ⟨cs "test", cs "x__y"⟩ := by
  constructor
  · decide
  · decide

/-- Claim C2 (amended): the round-trip holds whenever no other known server
has a longer prefixed form matching the namespaced name; in particular it
holds for any known-server list in which `u` is a maximal-length match. -/
theorem C2_roundtrip_amended (u t sep : Str) (servers : List Str)
    (hu : u ∈ servers)
    (hmax : ∀ v ∈ servers,
      (v ++ sep) <+: namespaceTool u t sep → v.length ≤ u.length) :
    parseNamespacedTool (namespaceTool u t sep) servers sep = some ⟨u, t⟩ := by
  have humatch : (u ++ sep) <+: namespaceTool u t sep := by
    rw [namespaceTool]
    exact List.prefix_append _ _
  have h := parseNamespacedTool_resolves hu humatch hmax
  rw [h]
  have : (namespaceTool u t sep).drop (u ++ sep).length = t := by
    rw [namespaceTool]
    exact List.drop_left _ _
  rw [this]

theorem C2_roundtrip_amended_witness :
    parseNamespacedTool
        (namespaceTool (cs "test_server") (cs "do_thing") (cs "__"))
        [cs "test", cs "test_server"] (cs "__") =
      some ⟨cs "test_server", cs "do_thing"⟩ :=
  C2_roundtrip_amended (cs "test_server") (cs "do_thing") (cs "__")
    [cs "test", cs "test_server"] (by decide) (by decide)

/-! ### Claim C9 -/

/-- Claim C9: in prefixed mode the `Server not connected` branch of
`callTool` is unreachable — the parse is run against exactly the upstream
map's keys, so a parsed server always resolves in the map. -/
theorem C9_serverNotConnected_unreachable (st : ServerManagerState)
    (name : Str) (args : Args) (hpfx : st.noPrefix = false)
    (hmeta : isMetaTool name = false) :
    (∀ p, parseNamespacedTool name (alKeys st.upstreams) st.separator = some p →
      (alLookup p.serverName st.upstreams).isSome) ∧
    (∀ s, (callTool st name args).1 ≠ .err (.serverNotConnected s)) := by
  constructor
  · intro p hp
    exact alLookup_isSome_of_mem_keys (parseNamespacedTool_some hp).1
  · intro s
    rw [callTool_eq_dispatch hmeta]
    cases hp : parseNamespacedTool name (alKeys st.upstreams) st.separator with
    | none => simp [callToolDispatch, hpfx, hp]
    | some p =>
      cases hcl : alLookup p.serverName st.upstreams with
      | none =>
        have := alLookup_isSome_of_mem_keys (parseNamespacedTool_some hp).1
        rw [hcl] at this
        cases this
      | some client =>
        simp only [callToolDispatch, hpfx, Bool.false_eq_true, if_false, hp, hcl]
        by_cases hv : stVisible st p.serverName
        · by_cases hf : (getFilteredTools st p.serverName client).any
              (fun t => t.name = p.toolName)
          · simp [hv, hf]
          · simp [hv, hf]
        · simp [hv]

theorem C9_serverNotConnected_unreachable_witness :
    (∀ p, parseNamespacedTool (cs "vitest__run_tests")
        (alKeys stVitest.upstreams) stVitest.separator = some p →
      (alLookup p.serverName stVitest.upstreams).isSome) ∧
    (∀ s, (callTool stVitest (cs "vitest__run_tests") []).1 ≠
      .err (.serverNotConnected s)) :=
  C9_serverNotConnected_unreachable stVitest (cs "vitest__run_tests") []
    rfl (by decide)

/-! ### Claim C10 -/

/-- Claim C10: `reconnect` is not atomic on failure — when the fresh
client's `connect()` throws, the exception propagates with the old upstream
already closed and removed, while the old server-config entry remains. -/
theorem C10_reconnect_not_atomic (st : ServerManagerState)
    (serverName : Str) (config : ServerConfig) (client : UpstreamModel)
    (oldConfig : ServerConfig)
    (hu : alLookup serverName st.upstreams = some client)
    (hc : alLookup serverName st.serverConfigs = some oldConfig)
    (hnd : (alKeys st.upstreams).Nodup) :
    ∃ st', reconnect st serverName config none = .connectFailed st' ∧
      alLookup serverName st'.upstreams = none ∧
      alLookup serverName st'.serverConfigs = some oldConfig := by
  refine ⟨{ st with upstreams := alErase serverName st.upstreams }, ?_, ?_, hc⟩
  · rw [reconnect, hu]
  · exact alLookup_alErase_self hnd

theorem C10_reconnect_not_atomic_witness :
    ∃ st', reconnect stVitest (cs "vitest") {} none = .connectFailed st' ∧
      alLookup (cs "vitest") st'.upstreams = none ∧
      alLookup (cs "vitest") st'.serverConfigs = some {} :=
  C10_reconnect_not_atomic stVitest (cs "vitest") {} vitestClient {}
    rfl rfl (by decide)

/-- Claim C7: with default options the backoff for attempt `n` is
`min(1000 * 2^n, 30000)`, hence bounded by the 30000 ms cap and monotone
in `n`. -/
theorem C7_calculateBackoff (n : Nat) :
    calculateBackoff n {} = min (1000 * 2 ^ n) 30000 ∧
    calculateBackoff n {} ≤ 30000 ∧
    calculateBackoff n {} ≤ calculateBackoff (n + 1) {} := by
  refine ⟨rfl, Nat.min_le_right _ _, ?_⟩
  have h : 1000 * 2 ^ n ≤ 1000 * 2 ^ (n + 1) :=
    Nat.mul_le_mul_left _ (Nat.pow_le_pow_right (by norm_num) (Nat.le_succ n))
  exact min_le_min h (le_refl _)

theorem applyToolsetOp_toolsets (tm : ToolsetMgr) (op : ToolsetOp) :
    (applyToolsetOp tm op).toolsets = tm.toolsets := by
  cases op with
  | load m =>
    cases h : alLookup m tm.toolsets with
    | none => simp [applyToolsetOp, loadToolset, h]
    | some ts => simp [applyToolsetOp, loadToolset, h]
  | unload m =>
    cases h : alLookup m tm.toolsets with
    | none => simp [applyToolsetOp, unloadToolset, h]
    | some ts => simp [applyToolsetOp, unloadToolset, h]

theorem applyToolsetOps_toolsets (ops : List ToolsetOp) (tm : ToolsetMgr) :
    (applyToolsetOps tm ops).toolsets = tm.toolsets := by
  induction ops generalizing tm with
  | nil => rfl
  | cons op rest ih =>
    rw [applyToolsetOps, List.foldl_cons]
    exact (ih (applyToolsetOp tm op)).trans (applyToolsetOp_toolsets tm op)

theorem mem_setAdd {l : List Str} {x n : Str} :
    n ∈ setAdd l x ↔ n = x ∨ n ∈ l := by
  by_cases hx : x ∈ l
  · simp only [setAdd, if_pos hx]
    constructor
    · exact Or.inr
    · rintro (rfl | h)
      · exact hx
      · exact h
  · simp [setAdd, hx, or_comm]

/-- One toolset operation updates loadedness of `n` exactly as the
corresponding `loadedAfter` step does. -/
theorem loaded_applyToolsetOp_step (tm : ToolsetMgr) (op : ToolsetOp) (n : Str) :
    decide (n ∈ (applyToolsetOp tm op).loadedToolsets) =
      (match op with
       | .load m =>
         if m = n ∧ (alLookup m tm.toolsets).isSome then true
         else decide (n ∈ tm.loadedToolsets)
       | .unload m =>
         if m = n ∧ (alLookup m tm.toolsets).isSome then false
         else decide (n ∈ tm.loadedToolsets)) := by
  cases op with
  | load m =>
    cases h : alLookup m tm.toolsets with
    | none => simp [applyToolsetOp, loadToolset, h]
    | some ts =>
      by_cases hm : m = n
      · subst hm
        have : m ∈ setAdd tm.loadedToolsets m := mem_setAdd.2 (Or.inl rfl)
        simp [applyToolsetOp, loadToolset, h, this]
      · have : (n ∈ setAdd tm.loadedToolsets m) ↔ n ∈ tm.loadedToolsets := by
          rw [mem_setAdd]
          exact or_iff_right (fun hc => hm hc.symm)
        simp [applyToolsetOp, loadToolset, h, hm, this]
  | unload m =>
    cases h : alLookup m tm.toolsets with
    | none => simp [applyToolsetOp, unloadToolset, h]
    | some ts =>
      by_cases hm : m = n
      · subst hm
        have : ¬ m ∈ tm.loadedToolsets.filter (fun y => y ≠ m) := by
          intro hc
          have := List.of_mem_filter hc
          simp at this
        simp [applyToolsetOp, unloadToolset, h, this]
      · have hiff : (n ∈ tm.loadedToolsets.filter (fun y => y ≠ m)) ↔
            n ∈ tm.loadedToolsets := by
          rw [List.mem_filter]
          constructor
          · exact fun hc => hc.1
          · exact fun hc => ⟨hc, decide_eq_true (fun hc2 : n = m => hm hc2.symm)⟩
        simp only [applyToolsetOp, unloadToolset, h]
        rw [if_neg (fun hc => hm hc.1)]
        exact decide_eq_decide.2 hiff

/-- Membership in the loaded set after an operation sequence, with an
arbitrary starting state. -/
theorem mem_loaded_applyToolsetOps (ops : List ToolsetOp) (tm : ToolsetMgr)
    (n : Str) :
    (n ∈ (applyToolsetOps tm ops).loadedToolsets) ↔
      (ops.foldl (fun b op =>
        match op with
        | .load m => if m = n ∧ (alLookup m tm.toolsets).isSome then true else b
        | .unload m => if m = n ∧ (alLookup m tm.toolsets).isSome then false else b)
        (decide (n ∈ tm.loadedToolsets))) = true := by
  induction ops generalizing tm with
  | nil => simp [applyToolsetOps]
  | cons op rest ih =>
    rw [applyToolsetOps, List.foldl_cons, List.foldl_cons]
    have h1 := ih (applyToolsetOp tm op)
    rw [applyToolsetOps] at h1
    rw [h1, applyToolsetOp_toolsets tm op, loaded_applyToolsetOp_step tm op n]

theorem filter_upstreamEntries (st : ServerManagerState) (u server : Str)
    (c : UpstreamModel) :
    (upstreamEntries st u c).filter (fun t => t.serverName = server) =
      if u = server then upstreamEntries st u c else [] := by
  by_cases hu : u = server
  · subst hu
    rw [if_pos rfl]
    apply List.filter_eq_self.2
    intro a ha
    rcases List.mem_map.1 ha with ⟨tool, -, rfl⟩
    exact decide_eq_true rfl
  · rw [if_neg hu]
    apply List.filter_eq_nil_iff.2
    intro a ha
    rcases List.mem_map.1 ha with ⟨tool, -, rfl⟩
    simpa using hu

theorem filter_upstreamBlock_ne (st : ServerManagerState)
    (u : Str × UpstreamModel) (server : Str) (h : u.1 ≠ server) :
    (upstreamBlock st u).filter (fun t => t.serverName = server) = [] := by
  rw [upstreamBlock]
  by_cases hv : stVisible st u.1
  · rw [if_neg (by simp [hv]), filter_upstreamEntries, if_neg h]
  · rw [if_pos (by simp [hv])]
    rfl

theorem filter_flatMap_blocks_notmem (st : ServerManagerState) (server : Str) :
    ∀ ups : List (Str × UpstreamModel), server ∉ alKeys ups →
      ((ups.flatMap (upstreamBlock st)).filter
        (fun t => t.serverName = server)) = [] := by
  intro ups
  induction ups with
  | nil => intro _; rfl
  | cons u rest ih =>
    intro hmem
    have h1 : u.1 ≠ server := fun hc => hmem (hc ▸ List.mem_cons_self _ _)
    have h2 : server ∉ alKeys rest := fun hc => hmem (List.mem_cons_of_mem _ hc)
    rw [List.flatMap_cons, List.filter_append, filter_upstreamBlock_ne st u server h1,
      ih h2]
    rfl

theorem filter_flatMap_blocks (st : ServerManagerState) (server : Str)
    (client : UpstreamModel) :
    ∀ ups : List (Str × UpstreamModel),
      alLookup server ups = some client → (alKeys ups).Nodup →
      ((ups.flatMap (upstreamBlock st)).filter (fun t => t.serverName = server)) =
        (if stVisible st server then upstreamEntries st server client else []) := by
  intro ups
  induction ups with
  | nil => intro h _; cases h
  | cons u rest ih =>
    intro hcl hnd
    rcases u with ⟨u₀, c₀⟩
    have hnd' := List.nodup_cons.1 hnd
    by_cases h0 : u₀ = server
    · subst h0
      rw [alLookup, if_pos rfl] at hcl
      cases hcl
      rw [List.flatMap_cons, List.filter_append,
        filter_flatMap_blocks_notmem st u₀ rest hnd'.1, List.append_nil,
        upstreamBlock]
      by_cases hv : stVisible st u₀
      · rw [if_neg (by simp [hv]), filter_upstreamEntries, if_pos rfl, if_pos hv]
      · rw [if_pos (by simp [hv]), if_neg hv]
        rfl
    · rw [alLookup, if_neg h0] at hcl
      rw [List.flatMap_cons, List.filter_append,
        filter_upstreamBlock_ne st _ server h0, ih hcl hnd'.2]
      rfl

theorem filter_getAllTools (st : ServerManagerState) (server : Str)
    (client : UpstreamModel)
    (hcl : alLookup server st.upstreams = some client)
    (hnd : (alKeys st.upstreams).Nodup)
    (hspike : server ≠ cs "spike") :
    (getAllTools st).filter (fun t => t.serverName = server) =
      if stVisible st server then upstreamEntries st server client else [] := by
  rw [getAllTools, List.filter_append]
  have hflat := filter_flatMap_blocks st server client st.upstreams hcl hnd
  cases hm : st.toolsetMgr with
  | none =>
    simpa using hflat
  | some tm =>
    have hmeta : (getMetaTools.map metaToolEntry).filter
        (fun t => t.serverName = server) = [] := by
      apply List.filter_eq_nil_iff.2
      intro a ha
      rcases List.mem_map.1 ha with ⟨mt, -, rfl⟩
      simpa [metaToolEntry] using fun hc => hspike hc.symm
    have hred : (match (some tm : Option ToolsetMgr) with
        | some _ => getMetaTools.map metaToolEntry
        | none => ([] : List NamespacedTool)) = getMetaTools.map metaToolEntry :=
      rfl
    rw [hred, hmeta, List.append_nil, hflat]

/-- Claim C3: after any sequence of load/unload operations, a server is
visible iff it belongs to no toolset or some containing toolset is
currently loaded, and `getAllTools` includes a connected upstream's
filtered namespaced tools iff that upstream is visible in this sense. -/
theorem C3_toolset_visibility (toolsets : List (Str × ToolsetConfig))
    (fn : Str → Nat) (ops : List ToolsetOp) (server : Str)
    (st : ServerManagerState) (client : UpstreamModel)
    (hmgr : st.toolsetMgr = some (applyToolsetOps (initToolsetMgr toolsets fn) ops))
    (hcl : alLookup server st.upstreams = some client)
    (hnd : (alKeys st.upstreams).Nodup)
    (hspike : server ≠ cs "spike") :
    toolsetCatalogSpec toolsets fn ops server st client := by
  have hts : (applyToolsetOps (initToolsetMgr toolsets fn) ops).toolsets =
      toolsets :=
    applyToolsetOps_toolsets ops (initToolsetMgr toolsets fn)
  refine ⟨?_, ?_, ?_⟩
  · rw [isServerVisible, hts]
    by_cases hb : toolsets.any (fun ts => server ∈ ts.2.servers)
    · simp only [hb, Bool.not_true, Bool.false_eq_true, if_false]
      rw [List.any_eq_true] at hb ⊢
      constructor
      · rintro ⟨ts, hts1, hts2⟩
        simp only [decide_eq_true_eq] at hts2
        exact Or.inr ⟨ts, hts1, hts2.1, hts2.2⟩
      · rintro (hall | ⟨ts, hts1, hts2, hts3⟩)
        · rcases hb with ⟨ts, hts1, hts2⟩
          simp only [decide_eq_true_eq] at hts2
          exact absurd hts2 (hall ts hts1)
        · exact ⟨ts, hts1, by simp [hts2, hts3]⟩
    · simp only [hb, Bool.not_false, if_true, true_iff]
      rw [List.any_eq_true] at hb
      push_neg at hb
      refine Or.inl (fun ts hts1 hc => ?_)
      exact absurd (decide_eq_true hc) (hb ts hts1)
  · intro n
    have h := mem_loaded_applyToolsetOps ops (initToolsetMgr toolsets fn) n
    rw [h]
    rfl
  · have h := filter_getAllTools st server client hcl hnd hspike
    have hv : stVisible st server =
        isServerVisible (applyToolsetOps (initToolsetMgr toolsets fn) ops)
          server := by
      rw [stVisible, hmgr]
    rw [← hv]
    exact h

theorem C3_toolset_visibility_witness :
    toolsetCatalogSpec toolsetsW (fun _ => 0) [ToolsetOp.load (cs "github")]
      (cs "github-mcp") stGh ghClient :=
  C3_toolset_visibility toolsetsW (fun _ => 0) [ToolsetOp.load (cs "github")]
    (cs "github-mcp") stGh ghClient rfl rfl (by decide) (by decide)

theorem agentLoopGo_calls_fst (client : ChatClientModel) (tools : List Tool) :
    ∀ (fuel : Nat) (st : ServerManagerState) (messages : List Message)
      (calls : List (List Tool × List NamespacedTool)),
      calls.map Prod.fst = List.replicate calls.length tools →
      (agentLoopGo client tools fuel st messages calls).calls.map Prod.fst =
        List.replicate
          (agentLoopGo client tools fuel st messages calls).calls.length tools := by
  intro fuel
  induction fuel with
  | zero => intro st messages calls h; exact h
  | succ fuel ih =>
    intro st messages calls h
    have happ : (calls ++ [(tools, getAllTools st)]).map Prod.fst =
        List.replicate (calls ++ [(tools, getAllTools st)]).length tools := by
      rw [List.map_append, h, List.length_append]
      simp [List.replicate_add]
    rw [agentLoopGo]
    by_cases hempty : ((client messages tools).filter isToolUse).isEmpty
    · simp only [hempty, if_true]
      exact happ
    · simp only [hempty, Bool.false_eq_true, if_false]
      exact ih _ _ _ happ

/-- Counterexample to claim C4 as stated: on the second iteration the tool
list passed to `createStream` (the pre-loop snapshot) differs from the
fleet's then-current catalog, which now contains `srv__t1`; and the
translation does not force a present top-level `type` to `object`. -/
theorem C4_tools_per_iteration_cex :
    (((runAgentLoop clientLoad (.str (cs "go")) stLazy [] 5).calls.get? 1).map
        (fun rec => rec.1.map Tool.name)) ≠
      (((runAgentLoop clientLoad (.str (cs "go")) stLazy [] 5).calls.get? 1).map
        (fun rec => (mcpToolsToClaude rec.2).map Tool.name)) ∧
    jsonObjGet (normalizeInputSchema (.obj [(cs "type", .str (cs "string"))]))
        (cs "type") = some (.str (cs "string")) ∧
    cs "string" ≠ cs "object" := by
  refine ⟨by decide, rfl, by decide⟩

/-- Claim C4 (amended): the tool list passed to `createStream` is the one
snapshot taken at loop entry — every iteration receives
`mcpToolsToClaude` of the catalog as of entering `runAgentLoop` — and the
translation sets a schema's top-level `type` to `object` only when the
schema carries no (truthy) `type`. -/
theorem C4_agentLoop_tools (client : ChatClientModel)
    (userMessage : MsgContent) (st : ServerManagerState)
    (messages : List Message) (maxTurns : Nat) :
    ((runAgentLoop client userMessage st messages maxTurns).calls.map Prod.fst =
      List.replicate
        (runAgentLoop client userMessage st messages maxTurns).calls.length
        (mcpToolsToClaude (getAllTools st))) ∧
    (∀ kvs v, alLookup (cs "type") kvs = some v → jsFalsy v = false →
      normalizeInputSchema (.obj kvs) = .obj kvs) := by
  constructor
  · exact agentLoopGo_calls_fst client (mcpToolsToClaude (getAllTools st))
      maxTurns st (messages ++ [⟨cs "user", userMessage⟩]) [] rfl
  · intro kvs v h1 h2
    simp [normalizeInputSchema, h1, h2]

theorem C4_agentLoop_tools_witness :
    normalizeInputSchema (.obj [(cs "type", .str (cs "string"))]) =
      .obj [(cs "type", .str (cs "string"))] :=
  (C4_agentLoop_tools clientLoad (.str (cs "go")) stLazy [] 5).2
    [(cs "type", .str (cs "string"))] (.str (cs "string")) rfl rfl

theorem fuzzyGo_eq_amended (target q : Str) :
    ∀ (t : List Char) (ti qi : Nat) (lastMatchIndex : Int) (score : Rat),
      fuzzyGo target q t ti qi lastMatchIndex score =
        fuzzyGoAmended target q t ti qi lastMatchIndex score := by
  intro t
  induction t with
  | nil => intro ti qi lmi score; rfl
  | cons c rest ih =>
    intro ti qi lmi score
    rw [fuzzyGo, fuzzyGoAmended]
    cases q[qi]? with
    | none => rfl
    | some qc =>
      by_cases hc : c = qc
      · simp only [if_pos hc]
        have hcond : (lmi = (ti : Int) - 1) ↔
            ((0 ≤ lmi ∧ lmi = (ti : Int) - 1) ∨ (ti = 0 ∧ lmi = -1)) := by
          omega
        rw [if_congr hcond rfl rfl, ih]
      · simp only [if_neg hc]
        exact ih _ _ _ _

/-- Counterexample to claim C8 as stated: on query `"a"` and target
`"abc"` the code scores 9 (prefix `+5`, an accidental consecutive `+3`
from the initial `lastMatchIndex = -1`, base `+1`) while the claim's
reference scores 8 (prefix `+5`, boundary `+2` at position 0, base `+1`). -/
theorem C8_fuzzyScore_cex :
    fuzzyScore (cs "a") (cs "abc") = 9 ∧
    fuzzyScoreSpec (cs "a") (cs "abc") = 8 ∧
    fuzzyScore (cs "a") (cs "abc") ≠ fuzzyScoreSpec (cs "a") (cs "abc") := by
  have h1 : fuzzyScore (cs "a") (cs "abc") = 9 := by
    norm_num +decide [fuzzyScore, fuzzyGo, isWordBoundary, cs]
  have h2 : fuzzyScoreSpec (cs "a") (cs "abc") = 8 := by
    norm_num +decide [fuzzyScoreSpec, fuzzyGoSpec, isWordBoundary, cs]
  refine ⟨h1, h2, ?_⟩
  rw [h1, h2]
  norm_num

/-- Claim C8 (amended): `fuzzyScore` equals the reference scoring function
with two corrections — the `+2` word-boundary bonus applies only at
positions after 0, and the `+3` consecutive bonus is also awarded to a
first match at position 0 (because the walk starts with
`lastMatchIndex = -1`). -/
theorem C8_fuzzyScore_amended (query target : Str) :
    fuzzyScore query target = fuzzyScoreAmended query target := by
  rw [fuzzyScore, fuzzyScoreAmended]
  by_cases h : query.isEmpty ∨ target.isEmpty
  · rw [if_pos h, if_pos h]
  · rw [if_neg h, if_neg h]
    simp only [fuzzyGo_eq_amended]

/-- Counterexample to claim C5 as stated: a direct invocation of the
create-named tool whose result has `isError = true` still changes the
session — `created["chess"]` receives the `_created` sentinel. -/
theorem C5_error_bookkeeping_cex :
    (directCallBookkeeping toolChessCreate none true emptySession).created =
      [(cs "chess", [cs "_created"])] ∧
    directCallBookkeeping toolChessCreate none true emptySession ≠
      emptySession := by
  exact ⟨by decide, by decide⟩

/-- Claim C5 (amended): on an errored direct invocation no identifier is
appended to `idsByKey`, but a configuration-prerequisite tool is still
marked as called, and a tool whose wire name contains `create` or
`bootstrap` still appends to `created[prefix]` (the extracted ids, or the
`_created` sentinel). -/
theorem C5_error_bookkeeping (tool : NamespacedTool) (parsed : Option JsonVal)
    (st : SessionState) :
    (directCallBookkeeping tool parsed true st).idsByKey = st.idsByKey ∧
    (directCallBookkeeping tool parsed true st).configToolsCalled =
      (if (alLookup (stripNamespace tool.namespacedName tool.serverName
          DEFAULT_SEPARATOR) CONFIG_PREREQUISITES).isSome then
        setAdd st.configToolsCalled
          (stripNamespace tool.namespacedName tool.serverName DEFAULT_SEPARATOR)
      else st.configToolsCalled) ∧
    (directCallBookkeeping tool parsed true st).created =
      (if strContainsSub tool.namespacedName (cs "create") ||
          strContainsSub tool.namespacedName (cs "bootstrap") then
        alSet (extractPrefix tool.namespacedName tool.serverName DEFAULT_SEPARATOR)
          (((alLookup (extractPrefix tool.namespacedName tool.serverName
              DEFAULT_SEPARATOR) st.created).getD []) ++
            (if 0 < (extractIdsFromResult parsed).length then
              extractIdsFromResult parsed
            else [cs "_created"]))
          st.created
      else st.created) := by
  by_cases hcfg : (alLookup (stripNamespace tool.namespacedName tool.serverName
      DEFAULT_SEPARATOR) CONFIG_PREREQUISITES).isSome
  · by_cases hcre : strContainsSub tool.namespacedName (cs "create") ||
        strContainsSub tool.namespacedName (cs "bootstrap")
    · by_cases hids : 0 < (extractIdsFromResult parsed).length
      · simp [directCallBookkeeping, hcfg, hcre, hids, recordConfigCall,
          recordCreate]
      · simp [directCallBookkeeping, hcfg, hcre, hids, recordConfigCall,
          recordCreate]
    · simp [directCallBookkeeping, hcfg, hcre, recordConfigCall]
  · by_cases hcre : strContainsSub tool.namespacedName (cs "create") ||
        strContainsSub tool.namespacedName (cs "bootstrap")
    · by_cases hids : 0 < (extractIdsFromResult parsed).length
      · simp [directCallBookkeeping, hcfg, hcre, hids, recordCreate]
      · simp [directCallBookkeeping, hcfg, hcre, hids, recordCreate]
    · simp [directCallBookkeeping, hcfg, hcre]

/-- Counterexample to claim C6 as stated: the subsequent
`/chess_make_move` does not dispatch with `game_id` auto-filled — the
exact-name lookup `getLatestId("game_id")` finds nothing (only `id` was
recorded), so the invocation takes the missing-required-parameter path. -/
theorem C6_autofill_cex :
    assembleDirectCall [toolChessCreate, toolChessMove] (cs "chess_make_move")
        moveRawArgs sessionAfterCreate = .missing [cs "game_id"] ∧
    assembleDirectCall [toolChessCreate, toolChessMove] (cs "chess_make_move")
        moveRawArgs sessionAfterCreate ≠
      .dispatch (cs "s__chess_make_move")
        [(cs "game_id", .str (cs "game_abc")), (cs "from", .str (cs "e2")),
         (cs "to", .str (cs "e4"))] := by
  have h : assembleDirectCall [toolChessCreate, toolChessMove]
      (cs "chess_make_move") moveRawArgs sessionAfterCreate =
      .missing [cs "game_id"] := by rfl
  refine ⟨h, ?_⟩
  rw [h]
  exact fun hc => DirectCallOutcome.noConfusion hc

/-- Claim C6 (amended): after the successful create, only the key `id`
holds `game_abc`; `getLatestId("game_id")` is `none` since auto-fill uses
the exact parameter name, so `/chess_make_move {"from","to"}` is not
dispatched — without an interactive channel it ends in the
missing-required-parameter path naming `game_id` (the tool itself is
visible via the prefix-created fallback). -/
theorem C6_autofill_behaviour :
    sessionAfterCreate.idsByKey = [(cs "id", [cs "game_abc"])] ∧
    getLatestId sessionAfterCreate (cs "game_id") = none ∧
    getLatestId sessionAfterCreate (cs "id") = some (cs "game_abc") ∧
    hasCreated sessionAfterCreate (cs "chess") = true ∧
    assembleDirectCall [toolChessCreate, toolChessMove] (cs "chess_make_move")
        moveRawArgs sessionAfterCreate = .missing [cs "game_id"] := by
  refine ⟨by decide, by decide, by decide, by decide, by rfl⟩

end SpikeCLI
